import Mathlib

/-!
Shallow embedding of the lotto/stock scraper (src/lotterry-scraper.js and
the stock-scraper source) and proofs about its change-detection,
persistence, retry and scheduling core.

JavaScript `Map` objects built from record lists are modelled as
insertion-ordered association lists with last-write-wins values; the
record shapes, `detectChanges`, `processNewData`, the retry wrapper and
the start/stop scheduler are translated directly from the source.
-/

set_option autoImplicit false

namespace LottoScraper

/-! ## Configuration (the CONFIG object, identical in both sources) -/

def maxRetries : Nat := 3

def retryDelay : Nat := 5000

def minInterval : Nat := 10 * 60 * 1000

def maxInterval : Nat := 15 * 60 * 1000

/-! ## JS Map model

A `new Map(list.map(item => [k item, item]))` is an insertion-ordered map:
a later pair with the same key overwrites the value but keeps the key's
original position. We model it as a `List (String × α)` with unique keys. -/

abbrev EntryMap (α : Type) := List (String × α)

def mapHas {α : Type} (m : EntryMap α) (k : String) : Bool :=
  m.any (fun p => p.1 == k)

def mapGet {α : Type} (m : EntryMap α) (k : String) : Option α :=
  (m.find? (fun p => p.1 == k)).map (fun p => p.2)

def mapSet {α : Type} (m : EntryMap α) (k : String) (v : α) : EntryMap α :=
  if mapHas m k then m.map (fun p => if p.1 == k then (k, v) else p)
  else m ++ [(k, v)]

def buildMap {α : Type} (key : α → String) (l : List α) : EntryMap α :=
  l.foldl (fun m item => mapSet m (key item) item) []

/-! ## Record shapes -/

/-- Prize fields of a lottery record; each is a string or null
(`result.prizes[0]?.number || null` and the three running numbers). -/
structure Prizes where
  firstPrize : Option String
  three_front : Option String
  three_end : Option String
  two_end : Option String
deriving DecidableEq, Repr

/-- A lottery record as produced by `fetchLottoData`. -/
structure LotteryRecord where
  date : String
  prizes : Prizes
  lastUpdated : String
deriving DecidableEq, Repr

/-- A stock record as produced by `extractStockResults`. -/
structure StockRecord where
  countryCode : String
  stockName : String
  threeDigits : String
  twoDigits : String
  lastUpdated : String
deriving DecidableEq, Repr

/-- One entry of `changes.updated`: the identity key plus both versions. -/
structure Change (α : Type) where
  key : String
  old : α
  new : α
deriving DecidableEq, Repr

/-- The `changes` object with `added`, `updated` and `removed` arrays. -/
structure ChangeSet (α : Type) where
  added : List α
  updated : List (Change α)
  removed : List α
deriving DecidableEq, Repr

/-- The empty ChangeSet, as initialised at the top of `detectChanges`. -/
def ChangeSet.empty {α : Type} : ChangeSet α := ⟨[], [], []⟩

/-- `detectChanges(oldData, newData)`, generic over the identity-key
extractor and the `hasDataChanged` predicate (both sources are instances).
It builds the two lookup maps, walks `newMap` pushing added/updated
entries in iteration order, and walks `oldMap` pushing removed entries. -/
def detectChanges {α : Type} (key : α → String) (changed : α → α → Bool)
    (oldData newData : List α) : ChangeSet α :=
  let oldMap := buildMap key oldData
  let newMap := buildMap key newData
  { added := (newMap.filter (fun p => !(mapHas oldMap p.1))).map (fun p => p.2)
    updated := newMap.filterMap (fun p =>
      (mapGet oldMap p.1).bind (fun oldItem =>
        if changed oldItem p.2 then some ⟨p.1, oldItem, p.2⟩ else none))
    removed := (oldMap.filter (fun p => !(mapHas newMap p.1))).map (fun p => p.2) }

/-- `arePrizesEqual(p1, p2)`: strict equality of the four prize fields. -/
def arePrizesEqual (p1 p2 : Prizes) : Bool :=
  p1.firstPrize == p2.firstPrize &&
  p1.three_front == p2.three_front &&
  p1.three_end == p2.three_end &&
  p1.two_end == p2.two_end

namespace Lottery

/-- Lottery `hasDataChanged`: prize inequality; `lastUpdated` is not read. -/
def hasDataChanged (oldItem newItem : LotteryRecord) : Bool :=
  !(arePrizesEqual oldItem.prizes newItem.prizes)

/-- Lottery `detectChanges`, keyed by `item.date`. -/
def detectChanges (oldData newData : List LotteryRecord) : ChangeSet LotteryRecord :=
  LottoScraper.detectChanges (fun r => r.date) hasDataChanged oldData newData

end Lottery

namespace Stock

/-- Stock `hasDataChanged`: any of `threeDigits`, `twoDigits`,
`countryCode` differs; `lastUpdated` and `stockName` are not compared. -/
def hasDataChanged (oldItem newItem : StockRecord) : Bool :=
  oldItem.threeDigits != newItem.threeDigits ||
  oldItem.twoDigits != newItem.twoDigits ||
  oldItem.countryCode != newItem.countryCode

/-- Stock `detectChanges`, keyed by `item.stockName`. -/
def detectChanges (oldData newData : List StockRecord) : ChangeSet StockRecord :=
  LottoScraper.detectChanges (fun r => r.stockName) hasDataChanged oldData newData

end Stock

/-! ## Snapshot file model

The data file holds either the wrapped object written by `saveData`
(`lastUpdated` / `recordCount` / `data`), a legacy bare array, nothing
(ENOENT), or unparseable content. `loadExistingData` reads it with
`parsedData.data || parsedData`; a JS array is always truthy, so a
wrapped file always yields its `data` field. -/

inductive StoredFile (α : Type) where
  | absent
  | corrupt
  | bare (records : List α)
  | wrapped (lastUpdated : String) (recordCount : Nat) (records : List α)
deriving DecidableEq, Repr

/-- The record list `loadExistingData` assigns to `this.currentData`:
`data` field of the wrapped form, the bare array itself (legacy), and
`[]` on ENOENT or any other read/parse error. -/
def loadFile {α : Type} : StoredFile α → List α
  | .absent => []
  | .corrupt => []
  | .bare rs => rs
  | .wrapped _ _ rs => rs

/-- `saveData(data)`: overwrite the file with the wrapped object
`lastUpdated` (current time), `recordCount` (`data.length`), `data`. -/
def saveData {α : Type} (now : String) (records : List α) : StoredFile α :=
  .wrapped now records.length records

/-! ## Manager state

The mutable fields of a manager instance (`currentData`, `isRunning`,
`timeoutId`), plus `saves`, the sequence of record sets handed to
`saveData` (the last one is the current file content). -/

structure ManagerState (α : Type) where
  currentData : List α
  isRunning : Bool
  timeoutId : Option Nat
  saves : List (List α)
deriving DecidableEq, Repr

/-- The constructor's initial state. -/
def initialState (α : Type) : ManagerState α :=
  { currentData := [], isRunning := false, timeoutId := none, saves := [] }

/-- Shared tail of both `processNewData` bodies: compute the ChangeSet
against `currentData`; if it has any entries, set `currentData` to the
new list and persist it, otherwise leave the state untouched. -/
def applyChanges {α : Type} (detect : List α → List α → ChangeSet α)
    (st : ManagerState α) (newData : List α) : ChangeSet α × ManagerState α :=
  let changes := detect st.currentData newData
  let totalChanges :=
    changes.added.length + changes.updated.length + changes.removed.length
  if totalChanges > 0 then
    (changes, { st with currentData := newData, saves := st.saves ++ [newData] })
  else
    (changes, st)

namespace Lottery

/-- Lottery `processNewData(newData)`. The argument is `null` or an
array (what `extractWithRetry` resolves to); a null or empty argument is
guarded: it returns an empty ChangeSet without touching the state. -/
def processNewData (st : ManagerState LotteryRecord)
    (newData : Option (List LotteryRecord)) :
    ChangeSet LotteryRecord × ManagerState LotteryRecord :=
  match newData with
  | none => (ChangeSet.empty, st)
  | some nd =>
    if nd.length = 0 then (ChangeSet.empty, st)
    else applyChanges detectChanges st nd

end Lottery

namespace Stock

/-- Stock `processNewData(newData)`: no null/empty guard. -/
def processNewData (st : ManagerState StockRecord)
    (newData : List StockRecord) :
    ChangeSet StockRecord × ManagerState StockRecord :=
  applyChanges detectChanges st newData

end Stock

/-! ## Retry wrapper

A fetcher is modelled as a function from the attempt number (1-based)
to that invocation's outcome: an exception, or a value. `RetryTrace`
records the overall result, how many times the fetcher was invoked, and
the delays slept between attempts. -/

structure RetryTrace (α : Type) where
  result : Except String α
  calls : Nat
  waits : List Nat
deriving Repr

namespace Lottery

/-- One `fetchLottoData` invocation: raises, or resolves to a record or
to null (HTTP failure / missing prize data). -/
abbrev Fetch := Nat → Except String (Option LotteryRecord)

/-- The `for` loop of lottery `extractWithRetry`, with `fuel` the number
of remaining iterations (`maxRetries - attempt + 1`). A resolved record
returns `[result]`; an exception on the final attempt is re-thrown,
otherwise the loop sleeps `retryDelay` and retries; a null result falls
through to the next iteration with no sleep; an exhausted loop returns
null. -/
def retryLoop (fetch : Fetch) : Nat → Nat → RetryTrace (Option (List LotteryRecord))
  | 0, _ => ⟨.ok none, 0, []⟩
  | fuel + 1, attempt =>
    match fetch attempt with
    | .ok (some r) => ⟨.ok (some [r]), 1, []⟩
    | .ok none =>
      let t := retryLoop fetch fuel (attempt + 1)
      ⟨t.result, t.calls + 1, t.waits⟩
    | .error e =>
      if fuel = 0 then ⟨.error e, 1, []⟩
      else
        let t := retryLoop fetch fuel (attempt + 1)
        ⟨t.result, t.calls + 1, retryDelay :: t.waits⟩

/-- Lottery `extractWithRetry()`: run the loop from attempt 1. -/
def extractWithRetry (fetch : Fetch) : RetryTrace (Option (List LotteryRecord)) :=
  retryLoop fetch maxRetries 1

end Lottery

namespace Stock

/-- One `extractStockResults` invocation: raises, or resolves to the
(possibly empty) list of parsed rows. -/
abbrev Fetch := Nat → Except String (List StockRecord)

/-- The `for` loop of stock `extractWithRetry`: any resolved list (even
empty) is returned at once; exceptions behave as in the lottery variant;
an exhausted loop resolves to undefined (`none`), which is unreachable
from attempt 1. -/
def retryLoop (fetch : Fetch) : Nat → Nat → RetryTrace (Option (List StockRecord))
  | 0, _ => ⟨.ok none, 0, []⟩
  | fuel + 1, attempt =>
    match fetch attempt with
    | .ok results => ⟨.ok (some results), 1, []⟩
    | .error e =>
      if fuel = 0 then ⟨.error e, 1, []⟩
      else
        let t := retryLoop fetch fuel (attempt + 1)
        ⟨t.result, t.calls + 1, retryDelay :: t.waits⟩

/-- Stock `extractWithRetry()`: run the loop from attempt 1. -/
def extractWithRetry (fetch : Fetch) : RetryTrace (Option (List StockRecord)) :=
  retryLoop fetch maxRetries 1

end Stock

/-! ## Cycle and scheduler -/

namespace Lottery

/-- `runScrapingCycle()`: extract with retry, process; a propagated
fetch error is caught and logged, leaving the state untouched. -/
def runScrapingCycle (st : ManagerState LotteryRecord) (fetch : Fetch) :
    ManagerState LotteryRecord :=
  match (extractWithRetry fetch).result with
  | .error _ => st
  | .ok newData => (processNewData st newData).2

/-- `loadExistingData()`: set `currentData` from the data file. -/
def loadExistingData (st : ManagerState LotteryRecord)
    (file : StoredFile LotteryRecord) : ManagerState LotteryRecord :=
  { st with currentData := loadFile file }

/-- `scheduleNextRun()`: a no-op unless running, else arm the one-shot
timer (the chosen random interval is a parameter here). -/
def scheduleNextRun (st : ManagerState LotteryRecord) (interval : Nat) :
    ManagerState LotteryRecord :=
  if st.isRunning then { st with timeoutId := some interval } else st

/-- `start()`: a logged no-op when already running; otherwise set
`isRunning`, load the snapshot, run one cycle, arm the next run. -/
def start (st : ManagerState LotteryRecord) (file : StoredFile LotteryRecord)
    (fetch : Fetch) (interval : Nat) : ManagerState LotteryRecord :=
  if st.isRunning then st
  else
    let st1 := { st with isRunning := true }
    let st2 := loadExistingData st1 file
    let st3 := runScrapingCycle st2 fetch
    scheduleNextRun st3 interval

end Lottery

/-- `stop()` (identical in both sources): a logged no-op when not
running; otherwise clear `isRunning` and cancel any pending timer. -/
def stop {α : Type} (st : ManagerState α) : ManagerState α :=
  if st.isRunning then { st with isRunning := false, timeoutId := none }
  else st

/-! ## Lemmas about the map model -/

theorem mapHas_append {α : Type} (m1 m2 : EntryMap α) (k : String) :
    mapHas (m1 ++ m2) k = (mapHas m1 k || mapHas m2 k) := by
  simp [mapHas, List.any_append]

theorem mapHas_of_mem {α : Type} {m : EntryMap α} {p : String × α} (h : p ∈ m) :
    mapHas m p.1 = true := by
  simp only [mapHas, List.any_eq_true]
  exact ⟨p, h, by simp⟩

theorem mapHas_cons {α : Type} (q : String × α) (m : EntryMap α) (k : String) :
    mapHas (q :: m) k = (q.1 == k || mapHas m k) := by
  simp [mapHas]

theorem mapGet_cons {α : Type} (q : String × α) (m : EntryMap α) (k : String) :
    mapGet (q :: m) k = if q.1 == k then some q.2 else mapGet m k := by
  by_cases h : (q.1 == k) = true
  · simp [mapGet, List.find?_cons_of_pos _ h, h]
  · simp [mapGet, List.find?_cons_of_neg _ h, h]

theorem mapGet_isSome {α : Type} (m : EntryMap α) (k : String) :
    (mapGet m k).isSome = mapHas m k := by
  induction m with
  | nil => rfl
  | cons q m ih =>
    rw [mapGet_cons, mapHas_cons]
    by_cases h : (q.1 == k) = true <;> simp [h, ih]

theorem mapGet_of_mem_nodupKeys {α : Type} {m : EntryMap α}
    (hnd : (m.map (fun p => p.1)).Nodup) {p : String × α} (hp : p ∈ m) :
    mapGet m p.1 = some p.2 := by
  induction m with
  | nil => cases hp
  | cons q m ih =>
    rw [List.map_cons, List.nodup_cons] at hnd
    rw [mapGet_cons]
    rcases List.mem_cons.mp hp with rfl | hp2
    · simp
    · have hne : ¬(q.1 == p.1) = true := by
        simp only [beq_iff_eq]
        intro he
        apply hnd.1
        rw [he]
        exact List.mem_map.mpr ⟨p, hp2, rfl⟩
      rw [if_neg hne]
      exact ih hnd.2 hp2

theorem exists_mem_of_mapGet {α : Type} {m : EntryMap α} {k : String} {v : α}
    (h : mapGet m k = some v) : ∃ q ∈ m, q.1 = k ∧ q.2 = v := by
  unfold mapGet at h
  cases hf : m.find? (fun p => p.1 == k) with
  | none => rw [hf] at h; cases h
  | some q =>
    rw [hf] at h
    refine ⟨q, List.mem_of_find?_eq_some hf, ?_, ?_⟩
    · simpa using List.find?_some hf
    · simpa using h

theorem keys_map_update {α : Type} (m : EntryMap α) (k : String) (v : α) :
    (m.map (fun p => if p.1 == k then (k, v) else p)).map (fun p => p.1) =
      m.map (fun p => p.1) := by
  induction m with
  | nil => rfl
  | cons q m ih =>
    simp only [List.map_cons, ih]
    by_cases h : (q.1 == k) = true
    · rw [if_pos h]
      have hq : q.1 = k := by simpa using h
      simp [hq]
    · rw [if_neg h]

theorem keys_mapSet {α : Type} (m : EntryMap α) (k : String) (v : α) :
    (mapSet m k v).map (fun p => p.1) =
      if mapHas m k then m.map (fun p => p.1) else m.map (fun p => p.1) ++ [k] := by
  unfold mapSet
  by_cases h : mapHas m k = true
  · rw [if_pos h, if_pos h, keys_map_update]
  · rw [if_neg h, if_neg h, List.map_append]; rfl

theorem nodupKeys_mapSet {α : Type} {m : EntryMap α} (k : String) (v : α)
    (h : (m.map (fun p => p.1)).Nodup) :
    ((mapSet m k v).map (fun p => p.1)).Nodup := by
  rw [keys_mapSet]
  by_cases hk : mapHas m k = true
  · simpa [hk] using h
  · rw [if_neg hk]
    have hnotin : k ∉ m.map (fun p => p.1) := by
      intro hmem
      rcases List.mem_map.mp hmem with ⟨p, hp, hkey⟩
      exact hk (hkey ▸ mapHas_of_mem hp)
    simp [List.nodup_append, h, hnotin]

theorem mem_mapSet {α : Type} {m : EntryMap α} {k : String} {v : α} {p : String × α}
    (hp : p ∈ mapSet m k v) : p ∈ m ∨ p = (k, v) := by
  unfold mapSet at hp
  by_cases h : mapHas m k = true
  · rw [if_pos h] at hp
    rcases List.mem_map.mp hp with ⟨q, hq, he⟩
    by_cases hqk : (q.1 == k) = true
    · right; rw [← he, if_pos hqk]
    · left; rw [← he, if_neg hqk]; exact hq
  · rw [if_neg h] at hp
    rcases List.mem_append.mp hp with h1 | h1
    · left; exact h1
    · right; simpa using h1

theorem buildMap_go_nodupKeys {α : Type} (key : α → String) (l : List α) :
    ∀ m : EntryMap α, (m.map (fun p => p.1)).Nodup →
      ((l.foldl (fun m item => mapSet m (key item) item) m).map (fun p => p.1)).Nodup := by
  induction l with
  | nil => intro m h; simpa using h
  | cons a l ih => intro m h; exact ih _ (nodupKeys_mapSet _ _ h)

theorem buildMap_nodupKeys {α : Type} (key : α → String) (l : List α) :
    ((buildMap key l).map (fun p => p.1)).Nodup :=
  buildMap_go_nodupKeys key l [] (by simp)

theorem buildMap_go_of_nodup {α : Type} (key : α → String) (l : List α) :
    ∀ m : EntryMap α, (∀ r ∈ l, mapHas m (key r) = false) → (l.map key).Nodup →
      l.foldl (fun m item => mapSet m (key item) item) m =
        m ++ l.map (fun r => (key r, r)) := by
  induction l with
  | nil => intro m _ _; simp
  | cons a l ih =>
    intro m hm hnd
    rw [List.map_cons, List.nodup_cons] at hnd
    have ha : mapHas m (key a) = false := hm a (List.mem_cons_self a l)
    have hset : mapSet m (key a) a = m ++ [(key a, a)] := by
      unfold mapSet; rw [if_neg (by simp [ha])]
    rw [List.foldl_cons, hset,
      ih (m ++ [(key a, a)]) ?_ hnd.2, List.append_assoc]
    · simp
    · intro r hr
      rw [mapHas_append]
      have h1 : mapHas m (key r) = false := hm r (List.mem_cons_of_mem _ hr)
      have h2 : ¬ key a = key r := by
        intro he
        apply hnd.1
        rw [he]
        exact List.mem_map.mpr ⟨r, hr, rfl⟩
      rw [h1, Bool.false_or]
      simp only [mapHas, List.any_cons, List.any_nil, Bool.or_false]
      simpa using h2

theorem buildMap_of_nodup {α : Type} (key : α → String) {l : List α}
    (h : (l.map key).Nodup) : buildMap key l = l.map (fun r => (key r, r)) := by
  have hgo := buildMap_go_of_nodup key l [] (fun r _ => rfl) h
  simpa [buildMap] using hgo

theorem mapHas_map_pair {α : Type} (key : α → String) (l : List α) (k : String) :
    mapHas (l.map (fun r => (key r, r))) k = l.any (fun o => key o == k) := by
  induction l with
  | nil => rfl
  | cons a l ih => simp [mapHas, List.any_cons] at ih ⊢; rw [ih]

theorem mapGet_map_pair {α : Type} (key : α → String) (l : List α) (k : String) :
    mapGet (l.map (fun r => (key r, r))) k = l.find? (fun o => key o == k) := by
  induction l with
  | nil => rfl
  | cons a l ih =>
    rw [List.map_cons, mapGet_cons]
    by_cases h : (key a == k) = true
    · rw [if_pos h, List.find?_cons_of_pos (p := fun o => key o == k) l h]
    · rw [if_neg h, List.find?_cons_of_neg (p := fun o => key o == k) l h, ih]

theorem find?_key_of_nodup {α : Type} {key : α → String} {l : List α}
    (hnd : (l.map key).Nodup) {o : α} {k : String} (ho : o ∈ l) (hk : key o = k) :
    l.find? (fun r => key r == k) = some o := by
  induction l with
  | nil => cases ho
  | cons a l ih =>
    rw [List.map_cons, List.nodup_cons] at hnd
    by_cases h : (key a == k) = true
    · rw [List.find?_cons_of_pos (p := fun r => key r == k) l h]
      rcases List.mem_cons.mp ho with rfl | ho2
      · rfl
      · exfalso
        have h1 : key a = key o := by rw [hk]; simpa using h
        apply hnd.1
        rw [h1]
        exact List.mem_map.mpr ⟨o, ho2, rfl⟩
    · rw [List.find?_cons_of_neg (p := fun r => key r == k) l h]
      rcases List.mem_cons.mp ho with rfl | ho2
      · exact absurd (by simp [hk]) h
      · exact ih hnd.2 ho2

/-! ## Characterisation of detectChanges on duplicate-free record sets -/

theorem added_mem_iff {α : Type} (key : α → String) (changed : α → α → Bool)
    {oldData newData : List α}
    (hold : (oldData.map key).Nodup) (hnew : (newData.map key).Nodup) (r : α) :
    r ∈ (detectChanges key changed oldData newData).added ↔
      r ∈ newData ∧ ∀ o ∈ oldData, key o ≠ key r := by
  simp only [detectChanges, buildMap_of_nodup key hold, buildMap_of_nodup key hnew]
  rw [List.filter_map, List.map_map]
  simp only [List.mem_map, List.mem_filter, Function.comp_apply,
    mapHas_map_pair, Bool.not_eq_true', List.any_eq_false, beq_iff_eq]
  constructor
  · rintro ⟨n, ⟨hn, hnot⟩, rfl⟩
    exact ⟨hn, hnot⟩
  · rintro ⟨hr, hnot⟩
    exact ⟨r, ⟨hr, hnot⟩, rfl⟩

theorem removed_mem_iff {α : Type} (key : α → String) (changed : α → α → Bool)
    {oldData newData : List α}
    (hold : (oldData.map key).Nodup) (hnew : (newData.map key).Nodup) (r : α) :
    r ∈ (detectChanges key changed oldData newData).removed ↔
      r ∈ oldData ∧ ∀ n ∈ newData, key n ≠ key r := by
  simp only [detectChanges, buildMap_of_nodup key hold, buildMap_of_nodup key hnew]
  rw [List.filter_map, List.map_map]
  simp only [List.mem_map, List.mem_filter, Function.comp_apply,
    mapHas_map_pair, Bool.not_eq_true', List.any_eq_false, beq_iff_eq]
  constructor
  · rintro ⟨o, ⟨ho, hnot⟩, rfl⟩
    exact ⟨ho, hnot⟩
  · rintro ⟨hr, hnot⟩
    exact ⟨r, ⟨hr, hnot⟩, rfl⟩

theorem updated_mem_iff {α : Type} (key : α → String) (changed : α → α → Bool)
    {oldData newData : List α}
    (hold : (oldData.map key).Nodup) (hnew : (newData.map key).Nodup) (c : Change α) :
    c ∈ (detectChanges key changed oldData newData).updated ↔
      ∃ o ∈ oldData, ∃ n ∈ newData,
        key o = key n ∧ changed o n = true ∧ c = ⟨key n, o, n⟩ := by
  simp only [detectChanges, buildMap_of_nodup key hold, buildMap_of_nodup key hnew]
  rw [List.filterMap_map, List.mem_filterMap]
  constructor
  · rintro ⟨n, hn, hf⟩
    simp only [Function.comp_apply, mapGet_map_pair] at hf
    cases hfind : oldData.find? (fun o => key o == key n) with
    | none => rw [hfind, Option.none_bind] at hf; cases hf
    | some o =>
      rw [hfind, Option.some_bind] at hf
      have ho : o ∈ oldData := List.mem_of_find?_eq_some hfind
      have hko : key o = key n := by simpa using List.find?_some hfind
      by_cases hch : changed o n = true
      · rw [if_pos hch] at hf
        exact ⟨o, ho, n, hn, hko, hch, (Option.some_inj.mp hf).symm⟩
      · rw [if_neg hch] at hf; cases hf
  · rintro ⟨o, ho, n, hn, hko, hch, rfl⟩
    refine ⟨n, hn, ?_⟩
    simp only [Function.comp_apply, mapGet_map_pair]
    rw [find?_key_of_nodup hold ho hko, Option.some_bind, if_pos hch]

/-! ## Empty ChangeSet machinery

`mapsAgree eqFields m1 m2` is the spec-side statement that the two
lookup maps carry the same identity keys and field-equal records at
every key (no constraint on any other field). -/

def mapsAgree {α : Type} (eqFields : α → α → Bool) (m1 m2 : EntryMap α) : Bool :=
  m1.all (fun p => ((mapGet m2 p.1).map (eqFields p.2)).getD false) &&
  m2.all (fun p => mapHas m1 p.1)

theorem detectChanges_eq_empty {α : Type} (key : α → String) (changed : α → α → Bool)
    (eqFields : α → α → Bool)
    (hcompat : ∀ o n, eqFields o n = true → changed o n = false)
    {oldData newData : List α}
    (h : mapsAgree eqFields (buildMap key oldData) (buildMap key newData) = true) :
    detectChanges key changed oldData newData = ChangeSet.empty := by
  rw [mapsAgree, Bool.and_eq_true, List.all_eq_true, List.all_eq_true] at h
  obtain ⟨h1, h2⟩ := h
  simp only [detectChanges, ChangeSet.empty, ChangeSet.mk.injEq]
  refine ⟨?_, ?_, ?_⟩
  · rw [List.map_eq_nil_iff, List.filter_eq_nil_iff]
    intro p hp
    simp [h2 p hp]
  · rw [List.filterMap_eq_nil_iff]
    intro p hp
    have hhas : mapHas (buildMap key oldData) p.1 = true := h2 p hp
    cases hgo : mapGet (buildMap key oldData) p.1 with
    | none =>
      rw [← mapGet_isSome, hgo] at hhas
      exact absurd hhas (by simp)
    | some o =>
      obtain ⟨q, hq, hq1, hq2⟩ := exists_mem_of_mapGet hgo
      have hagree := h1 q hq
      rw [hq1, mapGet_of_mem_nodupKeys (buildMap_nodupKeys key newData) hp] at hagree
      rw [Option.map_some', Option.getD_some] at hagree
      have hch : changed o p.2 = false := by
        rw [← hq2]
        exact hcompat q.2 p.2 hagree
      rw [Option.some_bind, if_neg (by simp [hch])]
  · rw [List.map_eq_nil_iff, List.filter_eq_nil_iff]
    intro q hq
    have hagree := h1 q hq
    cases hgn : mapGet (buildMap key newData) q.1 with
    | none => rw [hgn] at hagree; exact absurd hagree (by simp)
    | some v =>
      have hhas : mapHas (buildMap key newData) q.1 = true := by
        rw [← mapGet_isSome, hgn]; rfl
      simp [hhas]

theorem detectChanges_self {α : Type} (key : α → String) (changed : α → α → Bool)
    (hrefl : ∀ a, changed a a = false) (l : List α) :
    detectChanges key changed l l = ChangeSet.empty := by
  apply detectChanges_eq_empty key changed (fun o n => !(changed o n))
    (fun o n h => by simpa using h)
  rw [mapsAgree, Bool.and_eq_true, List.all_eq_true, List.all_eq_true]
  constructor
  · intro p hp
    rw [mapGet_of_mem_nodupKeys (buildMap_nodupKeys key l) hp]
    simp [hrefl]
  · intro p hp
    exact mapHas_of_mem hp

theorem Lottery.lottery_hasDataChanged_self (r : LotteryRecord) :
    Lottery.hasDataChanged r r = false := by
  simp [Lottery.hasDataChanged, arePrizesEqual]

theorem Lottery.lottery_detectChanges_refl (l : List LotteryRecord) :
    Lottery.detectChanges l l = ChangeSet.empty :=
  LottoScraper.detectChanges_self _ _ Lottery.lottery_hasDataChanged_self l

theorem Stock.stock_hasDataChanged_self (r : StockRecord) :
    Stock.hasDataChanged r r = false := by
  simp [Stock.hasDataChanged]

theorem Stock.stock_detectChanges_refl (l : List StockRecord) :
    Stock.detectChanges l l = ChangeSet.empty :=
  LottoScraper.detectChanges_self _ _ Stock.stock_hasDataChanged_self l

theorem map_pair_snd {α : Type} (key : α → String) (l : List α) :
    (l.map (fun r => (key r, r))).map (fun p => p.2) = l := by
  induction l with
  | nil => rfl
  | cons a l ih => simp [ih]

theorem detectChanges_nil_right {α : Type} (key : α → String) (changed : α → α → Bool)
    {l : List α} (h : (l.map key).Nodup) :
    detectChanges key changed l [] = ⟨[], [], l⟩ := by
  simp only [detectChanges, buildMap_of_nodup key h, ChangeSet.mk.injEq]
  refine ⟨rfl, rfl, ?_⟩
  have hfilter : List.filter (fun p => !mapHas (buildMap key ([] : List α)) p.1)
      (l.map (fun r => (key r, r))) = l.map (fun r => (key r, r)) :=
    List.filter_eq_self.mpr (fun p _ => rfl)
  rw [hfilter, map_pair_snd]

/-! ## applyChanges lemmas -/

theorem changeSet_total_pos_iff {α : Type} (c : ChangeSet α) :
    0 < c.added.length + c.updated.length + c.removed.length ↔ c ≠ ChangeSet.empty := by
  obtain ⟨a, u, r⟩ := c
  rw [Nat.pos_iff_ne_zero, not_iff_not]
  simp [ChangeSet.empty, Nat.add_eq_zero, List.length_eq_zero, and_assoc]

theorem applyChanges_eq_of_ne {α : Type} (detect : List α → List α → ChangeSet α)
    (st : ManagerState α) (nd : List α)
    (h : detect st.currentData nd ≠ ChangeSet.empty) :
    applyChanges detect st nd =
      (detect st.currentData nd,
        { st with currentData := nd, saves := st.saves ++ [nd] }) := by
  simp only [applyChanges]
  rw [if_pos ((changeSet_total_pos_iff _).mpr h)]

theorem applyChanges_eq_of_empty {α : Type} (detect : List α → List α → ChangeSet α)
    (st : ManagerState α) (nd : List α)
    (h : detect st.currentData nd = ChangeSet.empty) :
    applyChanges detect st nd = (detect st.currentData nd, st) := by
  simp only [applyChanges]
  rw [if_neg (fun hpos => (changeSet_total_pos_iff _).mp hpos h)]

theorem applyChanges_twice {α : Type} (detect : List α → List α → ChangeSet α)
    (hself : ∀ l, detect l l = ChangeSet.empty)
    (st : ManagerState α) (nd : List α) :
    applyChanges detect (applyChanges detect st nd).2 nd =
      (ChangeSet.empty, (applyChanges detect st nd).2) := by
  by_cases h : detect st.currentData nd = ChangeSet.empty
  · have h1 : (applyChanges detect st nd).2 = st := by
      rw [applyChanges_eq_of_empty detect st nd h]
    rw [h1, applyChanges_eq_of_empty detect st nd h]
    simp only [Prod.mk.injEq]
    exact ⟨h, trivial⟩
  · have h1 : (applyChanges detect st nd).2 =
        { st with currentData := nd, saves := st.saves ++ [nd] } := by
      rw [applyChanges_eq_of_ne detect st nd h]
    rw [h1, applyChanges_eq_of_empty detect _ nd (hself nd)]
    simp only [Prod.mk.injEq]
    exact ⟨hself nd, trivial⟩

theorem applyChanges_isRunning {α : Type} (detect : List α → List α → ChangeSet α)
    (st : ManagerState α) (nd : List α) :
    (applyChanges detect st nd).2.isRunning = st.isRunning := by
  simp only [applyChanges]
  split <;> rfl

theorem Lottery.processNewData_isRunning (st : ManagerState LotteryRecord)
    (nd : Option (List LotteryRecord)) :
    (Lottery.processNewData st nd).2.isRunning = st.isRunning := by
  cases nd with
  | none => rfl
  | some l =>
    simp only [Lottery.processNewData]
    split
    · rfl
    · exact applyChanges_isRunning _ st l

theorem Lottery.runScrapingCycle_isRunning (st : ManagerState LotteryRecord)
    (fetch : Lottery.Fetch) :
    (Lottery.runScrapingCycle st fetch).isRunning = st.isRunning := by
  simp only [Lottery.runScrapingCycle]
  cases (Lottery.extractWithRetry fetch).result with
  | error e => rfl
  | ok nd => exact Lottery.processNewData_isRunning st nd

theorem Lottery.scheduleNextRun_isRunning (st : ManagerState LotteryRecord)
    (interval : Nat) :
    (Lottery.scheduleNextRun st interval).isRunning = st.isRunning := by
  simp only [Lottery.scheduleNextRun]
  split <;> rfl

/-! ## Sample records for concrete instantiations -/

def sampleA : LotteryRecord :=
  ⟨"2025-09-01", ⟨some "123456", some "111", some "222", some "33"⟩, "t1"⟩

def sampleA2 : LotteryRecord :=
  ⟨"2025-09-01", ⟨some "654321", some "111", some "222", some "33"⟩, "t2"⟩

def sampleA3 : LotteryRecord :=
  ⟨"2025-09-01", ⟨some "123456", some "111", some "222", some "33"⟩, "t9"⟩

def sampleB : LotteryRecord :=
  ⟨"2025-10-01", ⟨some "777777", some "123", some "456", some "78"⟩, "t1"⟩

def sampleS : StockRecord := ⟨"us", "DOW JONES", "123", "45", "t1"⟩

def sampleS2 : StockRecord := ⟨"us", "DOW JONES", "123", "45", "t9"⟩

/-! ## Claims -/

/-- C1: for every pair of record sets keyed by their identity field
(duplicate-free keys), `detectChanges` returns a ChangeSet whose `added`
holds exactly the new records whose key is absent from the old side,
whose `removed` holds exactly the old records whose key is absent from
the new side, and whose `updated` holds exactly the keys present on both
sides whose allow-listed fields differ, each entry carrying the key, the
old record and the new record. -/
theorem detectChanges_characterisation {α : Type} (key : α → String)
    (changed : α → α → Bool) (oldData newData : List α)
    (hold : (oldData.map key).Nodup) (hnew : (newData.map key).Nodup) :
    (∀ r, r ∈ (detectChanges key changed oldData newData).added ↔
        r ∈ newData ∧ ∀ o ∈ oldData, key o ≠ key r) ∧
    (∀ r, r ∈ (detectChanges key changed oldData newData).removed ↔
        r ∈ oldData ∧ ∀ n ∈ newData, key n ≠ key r) ∧
    (∀ c, c ∈ (detectChanges key changed oldData newData).updated ↔
        ∃ o ∈ oldData, ∃ n ∈ newData,
          key o = key n ∧ changed o n = true ∧ c = ⟨key n, o, n⟩) :=
  ⟨added_mem_iff key changed hold hnew,
   removed_mem_iff key changed hold hnew,
   updated_mem_iff key changed hold hnew⟩

/-- Witness for C1 at concrete lottery data: a fresh date is added and a
changed first prize on an existing date is reported as updated. -/
theorem detectChanges_characterisation_witness :
    sampleB ∈ (Lottery.detectChanges [sampleA] [sampleA2, sampleB]).added ∧
    (⟨"2025-09-01", sampleA, sampleA2⟩ : Change LotteryRecord) ∈
      (Lottery.detectChanges [sampleA] [sampleA2, sampleB]).updated := by
  have h := detectChanges_characterisation (fun r : LotteryRecord => r.date)
    Lottery.hasDataChanged [sampleA] [sampleA2, sampleB] (by decide) (by decide)
  constructor
  · exact (h.1 sampleB).mpr (by decide)
  · exact (h.2.2 ⟨"2025-09-01", sampleA, sampleA2⟩).mpr
      ⟨sampleA, by decide, sampleA2, by decide, by decide, by decide, by decide⟩

/-- C3: on identical record sets, and more generally on record sets
agreeing on identity keys and on every allow-listed field (lottery: the
four prize fields; stock: countryCode, threeDigits, twoDigits) while
possibly differing in `lastUpdated`, `detectChanges` yields an empty
ChangeSet: `lastUpdated` is excluded from the change-equality test. -/
theorem detectChanges_ignores_lastUpdated :
    (∀ X : List LotteryRecord, Lottery.detectChanges X X = ChangeSet.empty) ∧
    (∀ X : List StockRecord, Stock.detectChanges X X = ChangeSet.empty) ∧
    (∀ oldData newData : List LotteryRecord,
      mapsAgree (fun o n => arePrizesEqual o.prizes n.prizes)
        (buildMap (fun r => r.date) oldData)
        (buildMap (fun r => r.date) newData) = true →
      Lottery.detectChanges oldData newData = ChangeSet.empty) ∧
    (∀ oldData newData : List StockRecord,
      mapsAgree (fun o n => o.countryCode == n.countryCode &&
          o.threeDigits == n.threeDigits && o.twoDigits == n.twoDigits)
        (buildMap (fun r => r.stockName) oldData)
        (buildMap (fun r => r.stockName) newData) = true →
      Stock.detectChanges oldData newData = ChangeSet.empty) := by
  refine ⟨Lottery.lottery_detectChanges_refl, Stock.stock_detectChanges_refl, ?_, ?_⟩
  · intro oldData newData h
    exact detectChanges_eq_empty _ _ _
      (fun o n he => by simp [Lottery.hasDataChanged, he]) h
  · intro oldData newData h
    refine detectChanges_eq_empty _ _ _ (fun o n he => ?_) h
    simp only [Bool.and_eq_true, beq_iff_eq] at he
    simp [Stock.hasDataChanged, he.1.1, he.1.2, he.2]

/-- Witness for C3: sets whose records differ only in `lastUpdated`
produce an empty ChangeSet, in both variants. -/
theorem detectChanges_ignores_lastUpdated_witness :
    Lottery.detectChanges [sampleA] [sampleA3] = ChangeSet.empty ∧
    Stock.detectChanges [sampleS] [sampleS2] = ChangeSet.empty := by
  constructor
  · exact detectChanges_ignores_lastUpdated.2.2.1 [sampleA] [sampleA3] (by decide)
  · exact detectChanges_ignores_lastUpdated.2.2.2 [sampleS] [sampleS2] (by decide)

/-- C4: running `processNewData` twice in a row with the same non-empty
record set changes the state at most on the first call: the second call
returns an empty ChangeSet and leaves the state (snapshot and persisted
files) exactly as after the first call, in both variants. -/
theorem processNewData_idempotent :
    (∀ (st : ManagerState LotteryRecord) (nd : List LotteryRecord), nd ≠ [] →
      Lottery.processNewData (Lottery.processNewData st (some nd)).2 (some nd) =
        (ChangeSet.empty, (Lottery.processNewData st (some nd)).2)) ∧
    (∀ (st : ManagerState StockRecord) (nd : List StockRecord), nd ≠ [] →
      Stock.processNewData (Stock.processNewData st nd).2 nd =
        (ChangeSet.empty, (Stock.processNewData st nd).2)) := by
  constructor
  · intro st nd h
    have hlen : ¬ nd.length = 0 := by simpa [List.length_eq_zero] using h
    simp only [Lottery.processNewData, if_neg hlen]
    exact applyChanges_twice _ Lottery.lottery_detectChanges_refl st nd
  · intro st nd h
    exact applyChanges_twice _ Stock.stock_detectChanges_refl st nd

/-- Witness for C4 at a concrete run from the fresh state. -/
theorem processNewData_idempotent_witness :
    Lottery.processNewData
        (Lottery.processNewData (initialState LotteryRecord) (some [sampleA])).2
        (some [sampleA]) =
      (ChangeSet.empty,
        (Lottery.processNewData (initialState LotteryRecord) (some [sampleA])).2) :=
  processNewData_idempotent.1 (initialState LotteryRecord) [sampleA] (by decide)

/-- C2 counterexample: the claim says a successful-but-null fetch is
returned as-is without invoking the fetcher again. On the code, a fetcher
that resolves to null on attempt 1 and to a record afterwards is invoked
a second time, and `extractWithRetry` resolves to that second result, not
to null. -/
theorem null_fetch_retries_counterexample :
    (Lottery.extractWithRetry (fun n =>
        if n = 1 then Except.ok none else Except.ok (some sampleA))).calls = 2 ∧
    (Lottery.extractWithRetry (fun n =>
        if n = 1 then Except.ok none else Except.ok (some sampleA))).result =
      Except.ok (some [sampleA]) := by
  constructor <;> rfl

/-- C2 amended: a successful-but-null fetch does not raise and adds no
retry delay, but it does not end the loop either: the fetcher is invoked
again on the next attempt, and a fetcher that resolves to null on every
attempt is invoked `maxRetries` times, after which `extractWithRetry`
resolves to null rather than raising. -/
theorem null_fetch_not_error (fetch : Lottery.Fetch)
    (h : ∀ n, fetch n = Except.ok none) :
    Lottery.extractWithRetry fetch = ⟨Except.ok none, maxRetries, []⟩ := by
  simp [Lottery.extractWithRetry, Lottery.retryLoop, maxRetries, h 1, h 2, h 3]

/-- Witness for the amended C2. -/
theorem null_fetch_not_error_witness :
    Lottery.extractWithRetry (fun _ => Except.ok none) =
      ⟨Except.ok none, maxRetries, []⟩ :=
  null_fetch_not_error (fun _ => Except.ok none) (fun _ => rfl)

/-- C5: the snapshot is replaced and persisted exactly when the cycle's
ChangeSet is non-empty (first conjunct: non-empty means `currentData`
becomes the fetched list and one save is appended; second: empty means
the state is untouched); a cycle whose fetch propagates an error leaves
the whole state, scheduler flag included, exactly as it was; and a cycle
whose fetch resolves hands the resolved data to `processNewData`. -/
theorem snapshot_replaced_iff_changes :
    (∀ (st : ManagerState LotteryRecord) (nd : Option (List LotteryRecord)),
      ((Lottery.processNewData st nd).1 ≠ ChangeSet.empty →
        nd = some (Lottery.processNewData st nd).2.currentData ∧
        (Lottery.processNewData st nd).2.saves =
          st.saves ++ [(Lottery.processNewData st nd).2.currentData]) ∧
      ((Lottery.processNewData st nd).1 = ChangeSet.empty →
        (Lottery.processNewData st nd).2 = st)) ∧
    (∀ (st : ManagerState LotteryRecord) (fetch : Lottery.Fetch) (e : String),
      (Lottery.extractWithRetry fetch).result = Except.error e →
      Lottery.runScrapingCycle st fetch = st) ∧
    (∀ (st : ManagerState LotteryRecord) (fetch : Lottery.Fetch)
        (nd : Option (List LotteryRecord)),
      (Lottery.extractWithRetry fetch).result = Except.ok nd →
      Lottery.runScrapingCycle st fetch = (Lottery.processNewData st nd).2) := by
  refine ⟨?_, ?_, ?_⟩
  · intro st nd
    cases nd with
    | none => exact ⟨fun h => absurd rfl h, fun _ => rfl⟩
    | some l =>
      by_cases hlen : l.length = 0
      · simp only [Lottery.processNewData, if_pos hlen]
        exact ⟨fun h => absurd rfl h, fun _ => trivial⟩
      · simp only [Lottery.processNewData, if_neg hlen]
        by_cases hc : Lottery.detectChanges st.currentData l = ChangeSet.empty
        · rw [applyChanges_eq_of_empty _ _ _ hc]
          exact ⟨fun h => absurd hc h, fun _ => rfl⟩
        · rw [applyChanges_eq_of_ne _ _ _ hc]
          exact ⟨fun _ => ⟨rfl, rfl⟩, fun h => absurd h hc⟩
  · intro st fetch e h
    simp only [Lottery.runScrapingCycle, h]
  · intro st fetch nd h
    simp only [Lottery.runScrapingCycle, h]

/-- Witness for C5: one new record replaces the empty snapshot with one
save; an always-failing fetch leaves the fresh state untouched. -/
theorem snapshot_replaced_iff_changes_witness :
    (some [sampleA] =
        some (Lottery.processNewData (initialState LotteryRecord)
          (some [sampleA])).2.currentData ∧
      (Lottery.processNewData (initialState LotteryRecord)
          (some [sampleA])).2.saves =
        (initialState LotteryRecord).saves ++
          [(Lottery.processNewData (initialState LotteryRecord)
            (some [sampleA])).2.currentData]) ∧
    Lottery.runScrapingCycle (initialState LotteryRecord)
        (fun _ => Except.error "boom") =
      initialState LotteryRecord := by
  constructor
  · exact (snapshot_replaced_iff_changes.1 (initialState LotteryRecord)
      (some [sampleA])).1 (by decide)
  · exact snapshot_replaced_iff_changes.2.1 (initialState LotteryRecord)
      (fun _ => Except.error "boom") "boom" rfl

/-- C6: a fetcher that raises on every invocation is invoked exactly
`maxRetries` (3) times, with the fixed `retryDelay` slept between
consecutive attempts, and the final attempt's error is propagated, in
both variants. -/
theorem retry_bound :
    (∀ (fetch : Lottery.Fetch) (err : Nat → String),
      (∀ n, fetch n = Except.error (err n)) →
      Lottery.extractWithRetry fetch =
        ⟨Except.error (err maxRetries), maxRetries, [retryDelay, retryDelay]⟩) ∧
    (∀ (fetch : Stock.Fetch) (err : Nat → String),
      (∀ n, fetch n = Except.error (err n)) →
      Stock.extractWithRetry fetch =
        ⟨Except.error (err maxRetries), maxRetries, [retryDelay, retryDelay]⟩) := by
  constructor
  · intro fetch err h
    simp [Lottery.extractWithRetry, Lottery.retryLoop, maxRetries, h 1, h 2, h 3]
  · intro fetch err h
    simp [Stock.extractWithRetry, Stock.retryLoop, maxRetries, h 1, h 2, h 3]

/-- Witness for C6 with a concrete always-failing fetcher. -/
theorem retry_bound_witness :
    Lottery.extractWithRetry (fun _ => Except.error "down") =
      ⟨Except.error "down", maxRetries, [retryDelay, retryDelay]⟩ ∧
    Stock.extractWithRetry (fun _ => Except.error "down") =
      ⟨Except.error "down", maxRetries, [retryDelay, retryDelay]⟩ :=
  ⟨retry_bound.1 (fun _ => Except.error "down") (fun _ => "down") (fun _ => rfl),
   retry_bound.2 (fun _ => Except.error "down") (fun _ => "down") (fun _ => rfl)⟩

/-- C7: saving a record set and loading it back leaves the in-memory
snapshot equal to the saved records, the wrapper's `lastUpdated` and
`recordCount` bookkeeping fields notwithstanding. -/
theorem save_load_roundtrip :
    ∀ (st : ManagerState LotteryRecord) (records : List LotteryRecord)
      (now : String),
      (Lottery.loadExistingData st (saveData now records)).currentData =
        records :=
  fun _ _ _ => rfl

/-- C8: loading a legacy bare-array file yields the same in-memory
snapshot as loading the wrapped object carrying the same `data` field,
whatever the wrapper's bookkeeping fields hold. -/
theorem load_backward_compatible :
    ∀ (st : ManagerState LotteryRecord) (records : List LotteryRecord)
      (ts : String) (n : Nat),
      Lottery.loadExistingData st (StoredFile.bare records) =
        Lottery.loadExistingData st (StoredFile.wrapped ts n records) :=
  fun _ _ _ _ => rfl

/-- C9: the scheduler is a two-state machine: `start` turns a stopped
scheduler on and is a no-op on a running one; `stop` turns a running
scheduler off, clearing any armed timer, touching nothing else, and is a
no-op on a stopped one; the cycle operations never change the running
flag. -/
theorem scheduler_state_machine :
    (∀ (st : ManagerState LotteryRecord) (file : StoredFile LotteryRecord)
        (fetch : Lottery.Fetch) (interval : Nat),
      st.isRunning = false →
        (Lottery.start st file fetch interval).isRunning = true) ∧
    (∀ (st : ManagerState LotteryRecord) (file : StoredFile LotteryRecord)
        (fetch : Lottery.Fetch) (interval : Nat),
      st.isRunning = true → Lottery.start st file fetch interval = st) ∧
    (∀ st : ManagerState LotteryRecord, st.isRunning = true →
      (stop st).isRunning = false ∧ (stop st).timeoutId = none ∧
      (stop st).currentData = st.currentData ∧ (stop st).saves = st.saves) ∧
    (∀ st : ManagerState LotteryRecord, st.isRunning = false → stop st = st) ∧
    (∀ (st : ManagerState LotteryRecord) (fetch : Lottery.Fetch),
      (Lottery.runScrapingCycle st fetch).isRunning = st.isRunning) ∧
    (∀ (st : ManagerState LotteryRecord) (nd : Option (List LotteryRecord)),
      (Lottery.processNewData st nd).2.isRunning = st.isRunning) ∧
    (∀ (st : ManagerState LotteryRecord) (file : StoredFile LotteryRecord),
      (Lottery.loadExistingData st file).isRunning = st.isRunning) ∧
    (∀ (st : ManagerState LotteryRecord) (interval : Nat),
      (Lottery.scheduleNextRun st interval).isRunning = st.isRunning) := by
  refine ⟨?_, ?_, ?_, ?_, Lottery.runScrapingCycle_isRunning,
    Lottery.processNewData_isRunning, fun _ _ => rfl,
    Lottery.scheduleNextRun_isRunning⟩
  · intro st file fetch interval h
    simp only [Lottery.start]
    rw [if_neg (by simp [h])]
    rw [Lottery.scheduleNextRun_isRunning, Lottery.runScrapingCycle_isRunning]
    rfl
  · intro st file fetch interval h
    simp only [Lottery.start]
    rw [if_pos h]
  · intro st h
    simp only [stop]
    rw [if_pos h]
    exact ⟨rfl, rfl, rfl, rfl⟩
  · intro st h
    simp only [stop]
    rw [if_neg (by simp [h])]

/-- Witness for C9 at concrete stopped and running states. -/
theorem scheduler_state_machine_witness :
    (Lottery.start (initialState LotteryRecord) StoredFile.absent
        (fun _ => Except.error "x") 7).isRunning = true ∧
    Lottery.start ⟨[sampleA], true, some 5, []⟩ StoredFile.absent
        (fun _ => Except.error "x") 7 = ⟨[sampleA], true, some 5, []⟩ ∧
    (stop (⟨[sampleA], true, some 5, []⟩ : ManagerState LotteryRecord)).isRunning
      = false ∧
    (stop (⟨[sampleA], true, some 5, []⟩ : ManagerState LotteryRecord)).timeoutId
      = none ∧
    stop (initialState LotteryRecord) = initialState LotteryRecord := by
  refine ⟨?_, ?_, ?_, ?_, ?_⟩
  · exact scheduler_state_machine.1 (initialState LotteryRecord)
      StoredFile.absent (fun _ => Except.error "x") 7 rfl
  · exact scheduler_state_machine.2.1 _ StoredFile.absent
      (fun _ => Except.error "x") 7 rfl
  · exact (scheduler_state_machine.2.2.1 _ rfl).1
  · exact (scheduler_state_machine.2.2.1 _ rfl).2.1
  · exact scheduler_state_machine.2.2.2.1 (initialState LotteryRecord) rfl

/-- C10: in the stock variant an empty fetched list against a non-empty
duplicate-free snapshot classifies every current record as removed,
empties the snapshot and persists the empty set; the lottery variant
guards null and empty input, returning an empty ChangeSet and leaving
the state untouched. -/
theorem empty_fetch_divergence :
    (∀ st : ManagerState StockRecord, st.currentData ≠ [] →
      (st.currentData.map (fun r => r.stockName)).Nodup →
      (Stock.processNewData st []).1.added = [] ∧
      (Stock.processNewData st []).1.updated = [] ∧
      (Stock.processNewData st []).1.removed = st.currentData ∧
      (Stock.processNewData st []).2.currentData = [] ∧
      (Stock.processNewData st []).2.saves = st.saves ++ [[]]) ∧
    (∀ st : ManagerState LotteryRecord,
      Lottery.processNewData st (some []) = (ChangeSet.empty, st) ∧
      Lottery.processNewData st none = (ChangeSet.empty, st)) := by
  constructor
  · intro st hne hnd
    have hdet : Stock.detectChanges st.currentData [] = ⟨[], [], st.currentData⟩ :=
      detectChanges_nil_right _ _ hnd
    have hc : Stock.detectChanges st.currentData [] ≠ ChangeSet.empty := by
      rw [hdet]
      simp [ChangeSet.empty, ChangeSet.mk.injEq, hne]
    have happ := applyChanges_eq_of_ne Stock.detectChanges st [] hc
    rw [show Stock.processNewData st [] =
      applyChanges Stock.detectChanges st [] from rfl, happ, hdet]
    exact ⟨rfl, rfl, rfl, rfl, rfl⟩
  · intro st
    exact ⟨rfl, rfl⟩

/-- Witness for C10 at a one-record stock snapshot. -/
theorem empty_fetch_divergence_witness :
    (Stock.processNewData ⟨[sampleS], true, none, []⟩ []).1.removed = [sampleS] ∧
    (Stock.processNewData ⟨[sampleS], true, none, []⟩ []).2.currentData = [] ∧
    (Stock.processNewData ⟨[sampleS], true, none, []⟩ []).2.saves = [[]] := by
  have h := empty_fetch_divergence.1 ⟨[sampleS], true, none, []⟩
    (by decide) (by decide)
  exact ⟨h.2.2.1, h.2.2.2.1, h.2.2.2.2⟩

end LottoScraper
